import Mathlib

/-!
Verification development for the finance-data-visualization backend.

The Lean definitions below are shallow embeddings of the Python sources:
  * `src/backend/src/services/graph_builder.py`   (GraphBuilder)
  * `src/backend/src/services/graph_service.py`   (GraphService.build_initial_graph)
  * `src/backend/src/services/tree_service.py`    (TreeService._build_options_tree_list)
  * `src/backend/src/cache/cache_interface.py`    (CacheEntry)
  * `src/backend/src/cache/memory_cache.py`       (MemoryCache)
  * `src/backend/src/cache/cache_manager.py`      (CacheManager)
  * `src/backend/src/entities/entity_types.py`    (Stock.to_node_dict)

Conventions:
  * Python `datetime.now()` instants are modelled as integers supplied
    explicitly to each operation.
  * A Python identifier-value dictionary `{id_type: id_value}` is modelled by
    the single identifier value it wraps (the graph builder always builds it
    from one `(id_type, id_value)` pair).
  * Python exceptions raised by data providers are modelled with
    `Except String`; a caught exception corresponds to discarding the error.
-/

namespace FinViz

/-- Flat JSON-like scalar values, the value type of raw entity data
dictionaries (`BaseEntity.data` in `entity_types.py`). `vnull` is Python's
`None`. -/
inductive Val where
  | vnull
  | vstr (s : String)
  | vint (n : Int)
  | vbool (b : Bool)
deriving Repr, DecidableEq

/-- One level of a rendered dictionary: either a scalar or a nested flat
dictionary (such as `additionalLines` or `idValue` in `to_node_dict`). -/
inductive RVal where
  | leaf (v : Val)
  | dict (l : List (String × Val))
deriving Repr, DecidableEq

/-- Association-list lookup, the embedding of Python `dict.get(k)` returning
`None` for a missing key (`none` here). -/
def alookup (k : String) : List (String × β) → Option β
  | [] => none
  | (k', v) :: rest => if k = k' then some v else alookup k rest

/-- Remove a key from an association list (Python `del d[k]`). -/
def aerase (k : String) : List (String × β) → List (String × β)
  | [] => []
  | (k', v) :: rest => if k = k' then aerase k rest else (k', v) :: aerase k rest

/-- Insert or replace a key in an association list (Python `d[k] = v`). -/
def aset (k : String) (v : β) (l : List (String × β)) : List (String × β) :=
  (k, v) :: aerase k l

/-- Python `data.get(k)` on a raw-data dictionary: missing keys give `None`. -/
def pyGet (d : List (String × Val)) (k : String) : Val :=
  (alookup k d).getD .vnull

/-- Python `data.get(k, default)`. -/
def pyGetD (d : List (String × Val)) (k : String) (dflt : Val) : Val :=
  (alookup k d).getD dflt

/-- An entity as handled by the graph builder: the derived primary id
(`BaseEntity.id`), the entity type tag (`BaseEntity.entity_type`) and the raw
data dictionary (`BaseEntity.data`, flat scalar fields; nested raw fields are
not consulted by the traversal). -/
structure Entity where
  id : String
  etype : String
  data : List (String × Val)
deriving Repr, DecidableEq

/-- A relationship catalog entry, as read by `_build_graph_recursive` from
`config_manager.get_entity_relationships`: the keys `name`, `target_type`,
`relationship_label`, `expensive` and `display_in_graph` of the relationship
dictionary. -/
structure Rel where
  name : String
  target_type : String
  relationship_label : String
  expensive : Bool
  display_in_graph : Bool
deriving Repr, DecidableEq

/-- An edge dictionary `{"source": ..., "target": ..., "relationship": ...}`
as appended by `_build_graph_recursive`. -/
structure Edge where
  source : String
  target : String
  relationship : String
deriving Repr, DecidableEq

/-- A data provider (`BaseDataProvider`): `getById` embeds
`get_entity_by_id(entity_type, id_type, id_value, parent)` and `getRelated`
embeds `get_related_entity_ids(source_entity, relationship_name)`.  Both may
raise (`Except.error`). -/
structure Provider where
  getById : String → String → String → Option Entity → Except String (Option Entity)
  getRelated : Entity → String → Except String (List (String × String))

/-- The world a traversal runs against: the relationship catalog
(`get_entity_relationships`), the provider lookup (`_get_data_provider`,
`none` when the entity type has no mapped or registered provider, in which
case the Python code raises `ValueError`), and generic-type resolution
(`_resolve_entity_type`, which already catches per-provider exceptions and
returns `None` on failure). -/
structure World where
  rels : String → List Rel
  getProvider : String → Option Provider
  resolveType : String → String → String → Option String

/-- The mutable traversal state of `_build_graph_recursive`: the `nodes` and
`edges` accumulator lists and the `visited_entities` set (modelled as the
list of its elements; only membership is ever consulted). -/
structure St where
  nodes : List Entity
  edges : List Edge
  visited : List String
deriving Repr, DecidableEq

/-- Node ids of the accumulated node list. -/
def St.ids (st : St) : List String := st.nodes.map Entity.id

/-- Lines 97-99 of `graph_builder.py`: append the entity to `nodes` and mark
it visited unless its id is already in the visited set. -/
def visitAdd (e : Entity) (st : St) : St :=
  if e.id ∈ st.visited then st
  else { st with nodes := st.nodes ++ [e], visited := e.id :: st.visited }

/-- Embeds `_get_related_entity` (lines 211-220): look up the provider for the
target type and fetch the entity with the source entity as parent context.
A missing provider raises, but the call site wraps this in `try`. -/
def fetchTarget (w : World) (targetType idType idValue : String) (parent : Entity) :
    Except String (Option Entity) :=
  match w.getProvider targetType with
  | none => .error ("No data provider found for entity type: " ++ targetType)
  | some p => p.getById targetType idType idValue (some parent)

/-- The `try` body of `_get_expensive_relationship_count` (lines 202-209):
the length of the related-id list, or `0` if the provider raises. -/
def relatedCount (p : Provider) (src : Entity) (relName : String) : Nat :=
  match p.getRelated src relName with
  | .ok l => l.length
  | .error _ => 0

/-- Embeds `_create_tree_list_node` (lines 176-194): the synthetic placeholder
entity for an expensive relationship.  Its id is the composite
`source.id + "_" + relationship.name` and its data dictionary carries the
related-id count as `totalCount`.  The Python object is a `TreeListNode`,
whose `entity_type` is its class name. -/
def mkTreeListNode (src : Entity) (r : Rel) (cnt : Nat) : Entity :=
  { id := src.id ++ "_" ++ r.name
  , etype := "TreeListNode"
  , data :=
      [ ("id", .vstr (src.id ++ "_" ++ r.name))
      , ("titleLine1", .vstr ("Click to view " ++ r.target_type ++ "s"))
      , ("titleLine2", .vstr "")
      , ("status", .vstr "ACTIVE")
      , ("totalCount", .vint cnt)
      , ("sourceEntityId", .vstr src.id)
      , ("relationshipName", .vstr r.name)
      , ("targetType", .vstr r.target_type) ] }

/-- One iteration of the `for id_type, id_value in related_ids` loop
(lines 143-174).  The whole body is inside `try`: a raising fetch or a
raising recursive call is caught and the loop continues with whatever
mutations already happened.  The edge is appended, and the recursion entered,
only when the fetched target's id is not yet visited. -/
def processTarget (w : World) (recurse : Entity → St → St) (src : Entity) (r : Rel)
    (st : St) (pr : String × String) : St :=
  match fetchTarget w r.target_type pr.1 pr.2 src with
  | .error _ => st
  | .ok none => st
  | .ok (some tgt) =>
    if tgt.id ∈ st.visited then st
    else recurse tgt
      { st with edges := st.edges ++ [⟨src.id, tgt.id, r.relationship_label⟩] }

/-- The full related-id loop of lines 143-174. -/
def goTargets (w : World) (recurse : Entity → St → St) (src : Entity) (r : Rel) :
    List (String × String) → St → St
  | [], st => st
  | pr :: rest, st =>
    goTargets w recurse src r rest (processTarget w recurse src r st pr)

/-- One iteration of the `for relationship in relationships` loop
(lines 110-174).  The second component is a pending uncaught exception: the
only statements of the loop body outside any `try` are the two
`_get_data_provider` calls on the source entity's type (line 132, and
line 200 via `_create_tree_list_node`), which raise `ValueError` when the
type has no provider.  A raised error aborts the remaining relationships. -/
def doRel (w : World) (recurse : Entity → St → St) (src : Entity) (r : Rel)
    (st : St) : St × Option String :=
  if !r.display_in_graph then (st, none)
  else if r.expensive then
    match w.getProvider src.etype with
    | none => (st, some ("No data provider found for entity type: " ++ src.etype))
    | some p =>
      let tn := mkTreeListNode src r (relatedCount p src r.name)
      if tn.id ∈ st.visited then (st, none)
      else
        ({ nodes := st.nodes ++ [tn]
         , edges := st.edges ++ [⟨src.id, tn.id, r.relationship_label⟩]
         , visited := tn.id :: st.visited }, none)
  else
    match w.getProvider src.etype with
    | none => (st, some ("No data provider found for entity type: " ++ src.etype))
    | some p =>
      match p.getRelated src r.name with
      | .error _ => (st, none)
      | .ok ids => (goTargets w recurse src r ids st, none)

/-- The relationship loop: run each relationship in order, stopping at the
first uncaught exception. -/
def goRels (w : World) (recurse : Entity → St → St) (src : Entity) :
    List Rel → St → St × Option String
  | [], st => (st, none)
  | r :: rs, st =>
    match doRel w recurse src r st with
    | (st', none) => goRels w recurse src rs st'
    | (st', some e) => (st', some e)

/-- Embeds `_build_graph_recursive` (lines 82-174).  The fuel is
`max_depth - current_depth`: the depth guard `current_depth >= max_depth`
is `fuel = 0`, and the recursive call at `current_depth + 1` runs with
`fuel - 1`.  Inner recursive calls sit inside the per-target `try`, so their
pending exception is dropped while their state mutations are kept. -/
def buildRec (w : World) : Nat → Entity → St → St × Option String
  | 0, src, st => (visitAdd src st, none)
  | f + 1, src, st =>
    goRels w (fun t s => (buildRec w f t s).1) src (w.rels src.etype) (visitAdd src st)

/-- The recursion actually used by `_build_graph_recursive` at remaining
fuel `f`, with the caught-exception semantics of the per-target `try`. -/
def buildStep (w : World) (f : Nat) : Entity → St → St :=
  fun t s => (buildRec w f t s).1

/-- The result of `build_graph` / `expand_node`.  The Python functions return
`{"nodes": [n.to_node_dict() for n in nodes], "edges": edges}`; the rendering
`to_node_dict` maps each entity to a dictionary whose `"id"` is exactly
`entity.id`, so node identity claims are stated on the entity list. -/
structure GraphResult where
  nodes : List Entity
  edges : List Edge
deriving Repr, DecidableEq

/-- Embeds `GraphBuilder.build_graph` (lines 23-53): resolve the generic type, fetch
the root (raising when the type cannot be resolved, the provider is missing,
the provider raises, or the lookup is empty), then traverse with
`max_depth = self.max_initial_depth = 2` from empty state. -/
def build_graph (w : World) (rootType idType idValue : String) :
    Except String GraphResult :=
  match w.resolveType rootType idType idValue with
  | none => .error ("Cannot resolve entity type for " ++ rootType)
  | some specific =>
    match w.getProvider specific with
    | none => .error ("No data provider found for entity type: " ++ specific)
    | some p =>
      match p.getById specific idType idValue none with
      | .error e => .error e
      | .ok none => .error ("Entity not found: " ++ idType ++ "=" ++ idValue)
      | .ok (some root) =>
        match buildRec w 2 root ⟨[], [], []⟩ with
        | (st, none) => .ok ⟨st.nodes, st.edges⟩
        | (_, some e) => .error e

/-- Embeds `GraphBuilder.expand_node` (lines 55-80): fetch the node entity by its
declared type (no generic resolution), pre-seed the visited set with its id,
and traverse with `max_depth = 1`.  The `node_id` argument is used only in
the error message. -/
def expand_node (w : World) (nodeId refType idType idValue : String) :
    Except String GraphResult :=
  match w.getProvider refType with
  | none => .error ("No data provider found for entity type: " ++ refType)
  | some p =>
    match p.getById refType idType idValue none with
    | .error e => .error e
    | .ok none => .error ("Node not found: " ++ nodeId)
    | .ok (some e) =>
      match buildRec w 1 e ⟨[], [], [e.id]⟩ with
      | (st, none) => .ok ⟨st.nodes, st.edges⟩
      | (_, some err) => .error err

/-! ### Result cache (`cache_interface.py`, `memory_cache.py`, `cache_manager.py`) -/

/-- Embeds `CacheEntry.__init__`: it keeps `value`, `created_at` and `expires_at`.
`expires_at` stays `None` unless `ttl` is truthy (`if ttl:`), so both a
`None` ttl and a `0` ttl give an entry that never expires. -/
structure CacheEntry (α : Type) where
  value : α
  created_at : Int
  expires_at : Option Int
deriving Repr, DecidableEq

/-- A `CacheEntry(value, ttl)` constructed at instant `now`. -/
def mkCacheEntry (v : α) (ttl : Option Int) (now : Int) : CacheEntry α :=
  { value := v
  , created_at := now
  , expires_at :=
      match ttl with
      | none => none
      | some t => if t = 0 then none else some (now + t) }

/-- Embeds `CacheEntry.is_expired`: false when `expires_at` is `None`, otherwise
`datetime.now() > expires_at` (strict). -/
def CacheEntry.is_expired (e : CacheEntry α) (now : Int) : Bool :=
  match e.expires_at with
  | none => false
  | some t => decide (now > t)

/-- Embeds `MemoryCache`: the underlying string-keyed entry dictionary.  The hit and
miss counters do not influence any observable value and are omitted; the
lock only guards concurrent access. -/
structure MemoryCache (α : Type) where
  store : List (String × CacheEntry α)
deriving Repr, DecidableEq

/-- Embeds `MemoryCache.get` at instant `now`: a missing key misses; an expired
entry is deleted (lazy eviction) and misses; otherwise the stored value is
returned and the cache is unchanged. -/
def MemoryCache.get (c : MemoryCache α) (key : String) (now : Int) :
    Option α × MemoryCache α :=
  match alookup key c.store with
  | none => (none, c)
  | some e =>
    if e.is_expired now then (none, ⟨aerase key c.store⟩)
    else (some e.value, c)

/-- Embeds `MemoryCache.set`: store a fresh entry under the key. -/
def MemoryCache.set (c : MemoryCache α) (key : String) (v : α)
    (ttl : Option Int) (now : Int) : MemoryCache α :=
  ⟨aset key (mkCacheEntry v ttl now) c.store⟩

/-- Embeds `CacheManager`: wraps a `MemoryCache` with an enabled flag and the
default TTL of 300 seconds. -/
structure CacheManager (α : Type) where
  cache : MemoryCache α
  enabled : Bool
  default_ttl : Int
deriving Repr, DecidableEq

/-- Embeds `CacheManager.__init__`: empty cache, enabled, default TTL 300. -/
def CacheManager.init (α : Type) : CacheManager α := ⟨⟨[]⟩, true, 300⟩

/-- Embeds `CacheManager.get`: returns `None` when disabled, else delegate. -/
def CacheManager.get (cm : CacheManager α) (key : String) (now : Int) :
    Option α × CacheManager α :=
  if cm.enabled then
    let r := cm.cache.get key now
    (r.1, { cm with cache := r.2 })
  else (none, cm)

/-- Embeds `CacheManager.set`: when enabled, store with `ttl or self._default_ttl`
(Python truthiness: a `None` or `0` ttl falls back to the default). -/
def CacheManager.set (cm : CacheManager α) (key : String) (v : α)
    (ttl : Option Int) (now : Int) : CacheManager α :=
  if cm.enabled then
    let eff : Int :=
      match ttl with
      | none => cm.default_ttl
      | some t => if t = 0 then cm.default_ttl else t
    { cm with cache := cm.cache.set key v (some eff) now }
  else cm

/-! ### Graph service (`graph_service.py`) -/

/-- The state of a `GraphService`: the world the wrapped `GraphBuilder` runs
against, the deterministic cache-key function (`generate_key("graph_build",
ref_data_type, id_type, id_value)` — an md5 of the serialized arguments,
abstracted here as an arbitrary function of them), and the cache manager
holding graph results. -/
structure GraphService where
  w : World
  genKey : String → String → String → String
  cm : CacheManager GraphResult

/-- Python truthiness of a graph-build result: the value is the dictionary
literal `{"nodes": ..., "edges": ...}`, a two-key dictionary, which is always
truthy regardless of its contents. -/
def graphResultTruthy (_ : GraphResult) : Bool := true

/-- Embeds `GraphService.build_initial_graph` at instant `now`, instrumented with a
flag recording whether the underlying `GraphBuilder.build_graph` was invoked
(`true` = computed, `false` = served from cache).  On a truthy cache hit the
cached value is returned as is; otherwise the builder runs (its exception
propagates) and the result is stored with a TTL of 300 seconds. -/
def build_initial_graph (s : GraphService) (refType idType idValue : String)
    (now : Int) : Except String (GraphResult × GraphService × Bool) :=
  let key := s.genKey refType idType idValue
  let g := s.cm.get key now
  match g.1 with
  | some r =>
    if graphResultTruthy r then .ok (r, { s with cm := g.2 }, false)
    else
      match build_graph s.w refType idType idValue with
      | .error e => .error e
      | .ok r2 => .ok (r2, { s with cm := g.2.set key r2 (some 300) now }, true)
  | none =>
    match build_graph s.w refType idType idValue with
    | .error e => .error e
    | .ok r2 => .ok (r2, { s with cm := g.2.set key r2 (some 300) now }, true)

/-! ### Tree pagination (`tree_service.py`, lines 94-120) -/

/-- The pagination fields of the dictionary returned by
`_build_options_tree_list`. -/
structure TreePage (α : Type) where
  data : List α
  page : Nat
  size : Nat
  total_items : Nat
  total_pages : Nat
  has_next : Bool
  has_previous : Bool
deriving Repr, DecidableEq

/-- Lines 94-120 of `tree_service.py`, applied to the already filtered and
sorted collection: `total_pages = (n + s - 1) // s` for positive page size,
the row slice `filtered_options[(page-1)*s : (page-1)*s + s]`, and the
`has_next` / `has_previous` flags.  `page ≥ 1` and `page_size ≥ 1` keep the
natural-number slice arithmetic aligned with Python's. -/
def paginateOptions (filtered : List α) (page page_size : Nat) : TreePage α :=
  let total_items := filtered.length
  let total_pages := if page_size > 0 then (total_items + page_size - 1) / page_size else 0
  let start_idx := (page - 1) * page_size
  let page_options := (filtered.drop start_idx).take page_size
  { data := page_options
  , page := page
  , size := page_size
  , total_items := total_items
  , total_pages := total_pages
  , has_next := decide (page < total_pages)
  , has_previous := decide (page > 1) }

/-! ### Graph-node rendering (`entity_types.py`, `Stock.to_node_dict`) -/

/-- Embeds `Stock.to_node_dict` (lines 40-56 of `entity_types.py`) applied to the
raw data dictionary of a stock entity, with `datetime.now().isoformat()`
passed in as `now`.  `self.id` is `data.get('instrumentId', '')`.  Every
template key is emitted unconditionally; optional fields fetched with
`data.get(k)` render as Python `None` (`Val.vnull`) when missing. -/
def stockToNodeDict (data : List (String × Val)) (now : String) :
    List (String × RVal) :=
  [ ("id", .leaf (pyGetD data "instrumentId" (.vstr "")))
  , ("titleLine1", .leaf (pyGetD data "instrument_type" (.vstr "Stock")))
  , ("titleLine2", .leaf (pyGetD data "name" (.vstr "")))
  , ("status", .leaf (pyGetD data "status" (.vstr "UNKNOWN")))
  , ("additionalLines", .dict
      [ ("Instrument Id", pyGet data "instrumentId")
      , ("ISIN", pyGet data "isin")
      , ("Primary Trading Line", pyGet data "primaryTradingLine")
      , ("Sector", pyGet data "sector") ])
  , ("refDataType", .leaf (.vstr "Stock"))
  , ("idType", .leaf (.vstr "instrumentId"))
  , ("idValue", .dict [("instrumentId", pyGetD data "instrumentId" (.vstr ""))])
  , ("asOf", .leaf (.vstr now)) ]

/-- The `additionalLines` sub-dictionary of a rendered node. -/
def addLines (nd : List (String × RVal)) : List (String × Val) :=
  match alookup "additionalLines" nd with
  | some (.dict l) => l
  | _ => []

/-! ### Concrete worlds for witnesses and counterexamples -/

/-- Stock STK-100 of the worked example in the relationship catalog. -/
def entSTK : Entity := ⟨"STK-100", "Stock", []⟩

/-- Listing TL-1001 of STK-100. -/
def entTL : Entity := ⟨"TL-1001", "Listing", []⟩

/-- Exchange EX-9, reached through the listing (depth 2). -/
def entEX : Entity := ⟨"EX-9", "Exchange", []⟩

/-- Issuer party IP-5 of STK-100. -/
def entIP : Entity := ⟨"IP-5", "InstrumentParty", []⟩

/-- The Stock relationships of the worked example: a listing, an issuer and
the expensive options relationship. -/
def relListing : Rel := ⟨"HAS_LISTING", "Listing", "LISTING", false, true⟩

/-- Stock to issuer party. -/
def relIssuer : Rel := ⟨"HAS_ISSUER", "InstrumentParty", "ISSUER", false, true⟩

/-- The expensive options relationship of a stock. -/
def relOptions : Rel := ⟨"IS_UNDERLYING_FOR", "Option", "HAS_OPTIONS", true, true⟩

/-- Listing to its exchange. -/
def relExch : Rel := ⟨"LISTED_ON", "Exchange", "EXCHANGE", false, true⟩

/-- A provider serving the worked example's four entities and their
relations; the expensive options relation lists three related ids. -/
def pSpec : Provider :=
  { getById := fun t _ iv _ =>
      .ok (match t, iv with
           | "Stock", "STK-100" => some entSTK
           | "Listing", "TL-1001" => some entTL
           | "Exchange", "EX-9" => some entEX
           | "InstrumentParty", "IP-5" => some entIP
           | _, _ => none)
  , getRelated := fun src relName =>
      .ok (match src.id, relName with
           | "STK-100", "HAS_LISTING" => [("tradingLineId", "TL-1001")]
           | "STK-100", "HAS_ISSUER" => [("entityId", "IP-5")]
           | "STK-100", "IS_UNDERLYING_FOR" =>
             [("underlyingInstrumentId", "STK-100"),
              ("underlyingInstrumentId", "STK-100"),
              ("underlyingInstrumentId", "STK-100")]
           | "TL-1001", "LISTED_ON" => [("exchangeId", "EX-9")]
           | _, _ => []) }

/-- The worked-example world: stock with listing, exchange, issuer and an
expensive options relationship. -/
def specW : World :=
  { rels := fun t =>
      match t with
      | "Stock" => [relListing, relIssuer, relOptions]
      | "Listing" => [relExch]
      | _ => []
  , getProvider := fun _ => some pSpec
  , resolveType := fun g _ _ => some g }

/-- Entity A of the parallel-relationship world. -/
def entA : Entity := ⟨"A", "T", []⟩

/-- Entity B of the parallel-relationship world, target of both
relationships out of A. -/
def entB : Entity := ⟨"B", "T2", []⟩

/-- First relationship from A to B. -/
def relP : Rel := ⟨"p", "T2", "L1", false, true⟩

/-- Second relationship from A to B (same target, different label). -/
def relQ : Rel := ⟨"q", "T2", "L2", false, true⟩

/-- Provider of the parallel-relationship world: both relationships of A
list B, and B resolves by id. -/
def pDup : Provider :=
  { getById := fun t _ iv _ =>
      .ok (match t, iv with
           | "T", "a" => some entA
           | "T2", "b" => some entB
           | _, _ => none)
  , getRelated := fun src relName =>
      .ok (match src.id, relName with
           | "A", "p" => [("id", "b")]
           | "A", "q" => [("id", "b")]
           | _, _ => []) }

/-- A world where the same target entity B is reachable from the root A via
two distinct non-expensive relationships. -/
def dupW : World :=
  { rels := fun t => match t with | "T" => [relP, relQ] | _ => []
  , getProvider := fun _ => some pDup
  , resolveType := fun g _ _ => some g }

/-- The graph produced for the worked example: the four real entities plus
the options placeholder, and the four labelled edges. -/
def specRes : GraphResult :=
  ⟨[entSTK, entTL, entEX, entIP, mkTreeListNode entSTK relOptions 3],
   [⟨"STK-100", "TL-1001", "LISTING"⟩,
    ⟨"TL-1001", "EX-9", "EXCHANGE"⟩,
    ⟨"STK-100", "IP-5", "ISSUER"⟩,
    ⟨"STK-100", "STK-100_IS_UNDERLYING_FOR", "HAS_OPTIONS"⟩]⟩

/-- Raw data of a stock that has an instrument id but no `isin` field. -/
def stockData0 : List (String × Val) := [("instrumentId", .vstr "STK-1")]

/-- The graph produced when expanding STK-100: the root is pre-seeded into
the visited set, so it appears only as an edge source, never as a node. -/
def expandRes : GraphResult :=
  ⟨[entTL, entIP, mkTreeListNode entSTK relOptions 3],
   [⟨"STK-100", "TL-1001", "LISTING"⟩,
    ⟨"STK-100", "IP-5", "ISSUER"⟩,
    ⟨"STK-100", "STK-100_IS_UNDERLYING_FOR", "HAS_OPTIONS"⟩]⟩

/-- The graph produced for the parallel-relationship world: B appears once,
and only the first relationship's edge is recorded. -/
def dupRes : GraphResult :=
  ⟨[entA, entB], [⟨"A", "B", "L1"⟩]⟩

/-- What the expensive branch of the relationship loop does, as an explicit
state update: one placeholder node and one edge, appended only when the
placeholder id is not yet visited.  This function mentions neither the
recursion nor `getById`. -/
def expensiveStep (src : Entity) (r : Rel) (p : Provider) (st : St) :
    St × Option String :=
  let tn := mkTreeListNode src r (relatedCount p src r.name)
  if tn.id ∈ st.visited then (st, none)
  else
    ({ nodes := st.nodes ++ [tn]
     , edges := st.edges ++ [⟨src.id, tn.id, r.relationship_label⟩]
     , visited := tn.id :: st.visited }, none)

/-! ### Invariant and reachability vocabulary -/

/-- The traversal only ever appends to `nodes` and `edges` and only ever adds
to the visited set. -/
def Grows (st st' : St) : Prop :=
  st.visited ⊆ st'.visited ∧ st.nodes <+: st'.nodes ∧ st.edges <+: st'.edges

/-- Node ids are duplicate-free and every node id has been marked visited. -/
def SInv (st : St) : Prop :=
  st.ids.Nodup ∧ ∀ i ∈ st.ids, i ∈ st.visited

/-- Every visited id is either pre-seeded (in `V0`) or the id of an
accumulated node. -/
def VInv (V0 : List String) (st : St) : Prop :=
  ∀ v ∈ st.visited, v ∈ V0 ∨ v ∈ st.ids

/-- Every accumulated edge has both endpoints visited. -/
def EInv (st : St) : Prop :=
  ∀ e ∈ st.edges, e.source ∈ st.visited ∧ e.target ∈ st.visited

/-- Like `EInv`, but edges may dangle at the single id `t` that the next
recursive call is about to visit. -/
def EHang (t : String) (st : St) : Prop :=
  ∀ e ∈ st.edges, e.source ∈ st.visited ∧ (e.target ∈ st.visited ∨ e.target = t)

/-- The conjunction of the construction invariants. -/
def PInv (V0 : List String) (st : St) : Prop :=
  SInv st ∧ VInv V0 st ∧ EInv st

/-- A single relationship hop of the conceptual entity graph: `tgt` is
produced from `src` either as the expensive-relationship placeholder or as a
successfully listed and fetched target of a displayed non-expensive
relationship. -/
def Hop (w : World) (src tgt : Entity) : Prop :=
  ∃ r, r ∈ w.rels src.etype ∧ r.display_in_graph = true ∧
    ((r.expensive = true ∧ ∃ p, w.getProvider src.etype = some p ∧
        tgt = mkTreeListNode src r (relatedCount p src r.name))
     ∨ (r.expensive = false ∧ ∃ p ids it iv, w.getProvider src.etype = some p ∧
        p.getRelated src r.name = .ok ids ∧ (it, iv) ∈ ids ∧
        fetchTarget w r.target_type it iv src = .ok (some tgt)))

/-- Reachability: `ReachLe w k a b` says `b` is reachable from `a` by a path of at most `k`
relationship hops. -/
inductive ReachLe (w : World) : Nat → Entity → Entity → Prop where
  | refl (k : Nat) (e : Entity) : ReachLe w k e e
  | step (a b c : Entity) (k : Nat) :
      Hop w a b → ReachLe w k b c → ReachLe w (k + 1) a c

/-- The outcome of the root-establishment phase of `build_graph`
(lines 28-37): the resolved root entity, or `none` when the type does not
resolve, no provider is registered for it, the provider raises, or the
lookup comes back empty — exactly the cases in which `build_graph` raises
before traversing. -/
def rootLookup (w : World) (gt it iv : String) : Option Entity :=
  match w.resolveType gt it iv with
  | none => none
  | some t =>
    match w.getProvider t with
    | none => none
    | some p =>
      match p.getById t it iv none with
      | .ok (some e) => some e
      | _ => none

/-- Hypothesis bundle on the recursion argument: it preserves the
construction invariants, allowing a single dangling edge into the entity it
is called on. -/
def RecPInv (V0 : List String) (recurse : Entity → St → St) : Prop :=
  ∀ t st, SInv st → VInv V0 st → EHang t.id st → PInv V0 (recurse t st)

/-! ### Basic lemmas -/

theorem alookup_aset_self (k : String) (v : β) (l : List (String × β)) :
    alookup k (aset k v l) = some v := by
  simp [aset, alookup]

theorem alookup_aerase_self (k : String) (l : List (String × β)) :
    alookup k (aerase k l) = none := by
  induction l with
  | nil => rfl
  | cons hd tl ih =>
    obtain ⟨k', v⟩ := hd
    by_cases h : k = k'
    · simpa [aerase, h] using ih
    · simp [aerase, h, alookup, ih]

theorem grows_refl (st : St) : Grows st st :=
  ⟨fun _ h => h, List.prefix_refl _, List.prefix_refl _⟩

theorem grows_trans {a b c : St} (h1 : Grows a b) (h2 : Grows b c) : Grows a c :=
  ⟨fun _ hv => h2.1 (h1.1 hv), h1.2.1.trans h2.2.1, h1.2.2.trans h2.2.2⟩

theorem ids_append_node (st : St) (e : Entity) :
    ({ st with nodes := st.nodes ++ [e] } : St).ids = st.ids ++ [e.id] := by
  simp [St.ids]

theorem ids_edges_update (st : St) (es : List Edge) :
    ({ st with edges := es } : St).ids = st.ids := rfl

theorem visitAdd_grows (e : Entity) (st : St) : Grows st (visitAdd e st) := by
  unfold visitAdd
  split
  · exact grows_refl st
  · exact ⟨fun v hv => List.mem_cons_of_mem _ hv,
      List.prefix_append _ _, List.prefix_refl _⟩

theorem visitAdd_mem (e : Entity) (st : St) : e.id ∈ (visitAdd e st).visited := by
  unfold visitAdd
  split
  · assumption
  · exact List.mem_cons_self _ _

theorem visitAdd_pinv (V0 : List String) (e : Entity) (st : St)
    (hs : SInv st) (hv : VInv V0 st) (he : EHang e.id st) :
    PInv V0 (visitAdd e st) := by
  by_cases h : e.id ∈ st.visited
  · simp only [visitAdd, if_pos h]
    refine ⟨hs, hv, fun ed hed => ?_⟩
    rcases he ed hed with ⟨h1, h2 | h2⟩
    · exact ⟨h1, h2⟩
    · exact ⟨h1, h2 ▸ h⟩
  · simp only [visitAdd, if_neg h]
    have hnotin : e.id ∉ st.ids := fun hmem => h (hs.2 _ hmem)
    refine ⟨⟨?_, ?_⟩, ?_, ?_⟩
    · simp only [St.ids, List.map_append, List.map_cons, List.map_nil]
      rw [List.nodup_append]
      refine ⟨hs.1, List.nodup_singleton _, ?_⟩
      simp only [List.disjoint_singleton]
      exact fun hm => hnotin hm
    · intro i hi
      simp only [St.ids, List.map_append, List.map_cons, List.map_nil] at hi
      rcases List.mem_append.1 hi with hi | hi
      · exact List.mem_cons_of_mem _ (hs.2 _ hi)
      · simp only [List.mem_singleton] at hi
        exact hi ▸ List.mem_cons_self _ _
    · intro v hv'
      simp only [St.ids, List.map_append, List.map_cons, List.map_nil]
      rcases List.mem_cons.1 hv' with hv' | hv'
      · right; simp [hv']
      · rcases hv v hv' with h1 | h1
        · exact Or.inl h1
        · exact Or.inr (List.mem_append.2 (Or.inl h1))
    · intro ed hed
      rcases he ed hed with ⟨h1, h2 | h2⟩
      · exact ⟨List.mem_cons_of_mem _ h1, List.mem_cons_of_mem _ h2⟩
      · exact ⟨List.mem_cons_of_mem _ h1, h2 ▸ List.mem_cons_self _ _⟩

theorem reachLe_succ {w : World} {k : Nat} {a b : Entity}
    (h : ReachLe w k a b) : ReachLe w (k + 1) a b := by
  induction h with
  | refl k e => exact ReachLe.refl _ _
  | step a b c k hab _ ih => exact ReachLe.step a b c _ hab ih

theorem reachLe_mono {w : World} {k k' : Nat} {a b : Entity}
    (h : ReachLe w k a b) (hk : k ≤ k') : ReachLe w k' a b := by
  induction hk with
  | refl => exact h
  | step _ ih => exact reachLe_succ ih

/-! ### The traversal only grows the state -/

theorem processTarget_grows (w : World) (recurse : Entity → St → St)
    (src : Entity) (r : Rel) (st : St) (pr : String × String)
    (hr : ∀ t s, Grows s (recurse t s)) :
    Grows st (processTarget w recurse src r st pr) := by
  unfold processTarget
  cases hft : fetchTarget w r.target_type pr.1 pr.2 src with
  | error e => exact grows_refl st
  | ok o =>
    cases o with
    | none => exact grows_refl st
    | some tgt =>
      by_cases h : tgt.id ∈ st.visited
      · simp only [if_pos h]
        exact grows_refl st
      · simp only [if_neg h]
        refine grows_trans ?_ (hr tgt _)
        exact ⟨fun v hv => hv, List.prefix_refl _, List.prefix_append _ _⟩

theorem goTargets_grows (w : World) (recurse : Entity → St → St)
    (src : Entity) (r : Rel)
    (hr : ∀ t s, Grows s (recurse t s)) :
    ∀ (l : List (String × String)) (st : St),
      Grows st (goTargets w recurse src r l st) := by
  intro l
  induction l with
  | nil => intro st; exact grows_refl st
  | cons pr rest ih =>
    intro st
    rw [goTargets]
    exact grows_trans (processTarget_grows w recurse src r st pr hr) (ih _)

theorem doRel_grows (w : World) (recurse : Entity → St → St)
    (src : Entity) (r : Rel) (st : St)
    (hr : ∀ t s, Grows s (recurse t s)) :
    Grows st (doRel w recurse src r st).1 := by
  unfold doRel
  split
  · exact grows_refl st
  · split
    · split
      · exact grows_refl st
      · dsimp only
        split
        · exact grows_refl st
        · exact ⟨fun v hv => List.mem_cons_of_mem _ hv,
            List.prefix_append _ _, List.prefix_append _ _⟩
    · split
      · exact grows_refl st
      · split
        · exact grows_refl st
        · exact goTargets_grows w recurse src r hr _ st

theorem goRels_grows (w : World) (recurse : Entity → St → St) (src : Entity)
    (hr : ∀ t s, Grows s (recurse t s)) :
    ∀ (rs : List Rel) (st : St), Grows st (goRels w recurse src rs st).1 := by
  intro rs
  induction rs with
  | nil => intro st; exact grows_refl st
  | cons r rest ih =>
    intro st
    rw [goRels]
    have hgrow := doRel_grows w recurse src r st hr
    cases hdo : doRel w recurse src r st with
    | mk st' err =>
      rw [hdo] at hgrow
      cases err with
      | none => exact grows_trans hgrow (ih st')
      | some e => exact hgrow

theorem buildRec_grows (w : World) :
    ∀ (f : Nat) (t : Entity) (st : St), Grows st (buildRec w f t st).1 := by
  intro f
  induction f with
  | zero => intro t st; exact visitAdd_grows t st
  | succ f ih =>
    intro t st
    rw [buildRec]
    exact grows_trans (visitAdd_grows t st)
      (goRels_grows w _ t (fun t' s' => ih t' s') _ _)

theorem buildRec_visits (w : World) (f : Nat) (t : Entity) (st : St) :
    t.id ∈ (buildRec w f t st).1.visited := by
  cases f with
  | zero => exact visitAdd_mem t st
  | succ f =>
    rw [buildRec]
    exact (goRels_grows w _ t (fun t' s' => buildRec_grows w f t' s') _ _).1
      (visitAdd_mem t st)

/-! ### The traversal preserves the construction invariants -/

theorem processTarget_pinv (V0 : List String) (w : World)
    (recurse : Entity → St → St) (src : Entity) (r : Rel) (st : St)
    (pr : String × String) (hrp : RecPInv V0 recurse)
    (hsrc : src.id ∈ st.visited) (h : PInv V0 st) :
    PInv V0 (processTarget w recurse src r st pr) := by
  unfold processTarget
  cases hft : fetchTarget w r.target_type pr.1 pr.2 src with
  | error e => exact h
  | ok o =>
    cases o with
    | none => exact h
    | some tgt =>
      by_cases hv : tgt.id ∈ st.visited
      · simp only [if_pos hv]
        exact h
      · simp only [if_neg hv]
        refine hrp tgt _ h.1 h.2.1 ?_
        intro ed hed
        rcases List.mem_append.1 hed with hed | hed
        · rcases h.2.2 ed hed with ⟨h1, h2⟩
          exact ⟨h1, Or.inl h2⟩
        · simp only [List.mem_singleton] at hed
          subst hed
          exact ⟨hsrc, Or.inr rfl⟩

theorem goTargets_pinv (V0 : List String) (w : World)
    (recurse : Entity → St → St) (src : Entity) (r : Rel)
    (hr : ∀ t s, Grows s (recurse t s)) (hrp : RecPInv V0 recurse) :
    ∀ (l : List (String × String)) (st : St),
      src.id ∈ st.visited → PInv V0 st →
      PInv V0 (goTargets w recurse src r l st) := by
  intro l
  induction l with
  | nil => intro st _ h; exact h
  | cons pr rest ih =>
    intro st hsrc h
    rw [goTargets]
    refine ih _ ?_ (processTarget_pinv V0 w recurse src r st pr hrp hsrc h)
    exact (processTarget_grows w recurse src r st pr hr).1 hsrc

theorem doRel_pinv (V0 : List String) (w : World)
    (recurse : Entity → St → St) (src : Entity) (r : Rel) (st : St)
    (hr : ∀ t s, Grows s (recurse t s)) (hrp : RecPInv V0 recurse)
    (hsrc : src.id ∈ st.visited) (h : PInv V0 st) :
    PInv V0 (doRel w recurse src r st).1 := by
  unfold doRel
  split
  · exact h
  · split
    · split
      · exact h
      · dsimp only
        split
        · exact h
        · rename_i p hp htn
          refine ⟨⟨?_, ?_⟩, ?_, ?_⟩
          · simp only [St.ids, List.map_append, List.map_cons, List.map_nil]
            rw [List.nodup_append]
            refine ⟨h.1.1, List.nodup_singleton _, ?_⟩
            simp only [List.disjoint_singleton]
            exact fun hm => htn (h.1.2 _ hm)
          · intro i hi
            simp only [St.ids, List.map_append, List.map_cons, List.map_nil] at hi
            rcases List.mem_append.1 hi with hi | hi
            · exact List.mem_cons_of_mem _ (h.1.2 _ hi)
            · simp only [List.mem_singleton] at hi
              exact hi ▸ List.mem_cons_self _ _
          · intro v hv
            simp only [St.ids, List.map_append, List.map_cons, List.map_nil]
            rcases List.mem_cons.1 hv with hv | hv
            · right
              exact List.mem_append.2 (Or.inr (by simp [hv]))
            · rcases h.2.1 v hv with h1 | h1
              · exact Or.inl h1
              · exact Or.inr (List.mem_append.2 (Or.inl h1))
          · intro ed hed
            rcases List.mem_append.1 hed with hed | hed
            · rcases h.2.2 ed hed with ⟨h1, h2⟩
              exact ⟨List.mem_cons_of_mem _ h1, List.mem_cons_of_mem _ h2⟩
            · simp only [List.mem_singleton] at hed
              subst hed
              exact ⟨List.mem_cons_of_mem _ hsrc, List.mem_cons_self _ _⟩
    · split
      · exact h
      · split
        · exact h
        · exact goTargets_pinv V0 w recurse src r hr hrp _ st hsrc h

theorem goRels_pinv (V0 : List String) (w : World)
    (recurse : Entity → St → St) (src : Entity)
    (hr : ∀ t s, Grows s (recurse t s)) (hrp : RecPInv V0 recurse) :
    ∀ (rs : List Rel) (st : St),
      src.id ∈ st.visited → PInv V0 st →
      PInv V0 (goRels w recurse src rs st).1 := by
  intro rs
  induction rs with
  | nil => intro st _ h; exact h
  | cons r rest ih =>
    intro st hsrc h
    rw [goRels]
    have hp := doRel_pinv V0 w recurse src r st hr hrp hsrc h
    have hg := doRel_grows w recurse src r st hr
    cases hdo : doRel w recurse src r st with
    | mk st' err =>
      rw [hdo] at hp hg
      cases err with
      | none => exact ih st' (hg.1 hsrc) hp
      | some e => exact hp

theorem buildRec_pinv (V0 : List String) (w : World) :
    ∀ (f : Nat) (t : Entity) (st : St),
      SInv st → VInv V0 st → EHang t.id st →
      PInv V0 (buildRec w f t st).1 := by
  intro f
  induction f with
  | zero => intro t st hs hv he; exact visitAdd_pinv V0 t st hs hv he
  | succ f ih =>
    intro t st hs hv he
    rw [buildRec]
    have h1 : PInv V0 (visitAdd t st) := visitAdd_pinv V0 t st hs hv he
    exact goRels_pinv V0 w _ t (fun t' s' => buildRec_grows w f t' s')
      (fun t' s' hs' hv' he' => ih t' s' hs' hv' he') _ _
      (visitAdd_mem t st) h1

/-! ### Every accumulated node is reachable within the remaining fuel -/

theorem visitAdd_nodes_mem (e : Entity) (st : St) (n : Entity)
    (h : n ∈ (visitAdd e st).nodes) : n ∈ st.nodes ∨ n = e := by
  unfold visitAdd at h
  split at h
  · exact Or.inl h
  · rcases List.mem_append.1 h with h | h
    · exact Or.inl h
    · simp only [List.mem_singleton] at h
      exact Or.inr h

theorem processTarget_reach (w : World) (recurse : Entity → St → St)
    (src : Entity) (r : Rel) (st : St) (pr : String × String) (f : Nat)
    (hrec : ∀ t s n, n ∈ (recurse t s).nodes → n ∈ s.nodes ∨ ReachLe w f t n)
    (hhop : ∀ tgt, fetchTarget w r.target_type pr.1 pr.2 src = .ok (some tgt) →
      Hop w src tgt) :
    ∀ n ∈ (processTarget w recurse src r st pr).nodes,
      n ∈ st.nodes ∨ ReachLe w (f + 1) src n := by
  intro n hn
  unfold processTarget at hn
  cases hft : fetchTarget w r.target_type pr.1 pr.2 src with
  | error e => rw [hft] at hn; exact Or.inl hn
  | ok o =>
    rw [hft] at hn
    cases o with
    | none => exact Or.inl hn
    | some tgt =>
      dsimp only at hn
      by_cases hv : tgt.id ∈ st.visited
      · rw [if_pos hv] at hn
        exact Or.inl hn
      · rw [if_neg hv] at hn
        rcases hrec tgt _ n hn with h | h
        · exact Or.inl h
        · exact Or.inr (ReachLe.step src tgt n f (hhop tgt hft) h)

theorem goTargets_reach (w : World) (recurse : Entity → St → St)
    (src : Entity) (r : Rel) (f : Nat)
    (hrec : ∀ t s n, n ∈ (recurse t s).nodes → n ∈ s.nodes ∨ ReachLe w f t n) :
    ∀ (l : List (String × String)) (st : St),
      (∀ pr ∈ l, ∀ tgt,
        fetchTarget w r.target_type pr.1 pr.2 src = .ok (some tgt) → Hop w src tgt) →
      ∀ n ∈ (goTargets w recurse src r l st).nodes,
        n ∈ st.nodes ∨ ReachLe w (f + 1) src n := by
  intro l
  induction l with
  | nil => intro st _ n hn; exact Or.inl hn
  | cons pr rest ih =>
    intro st hhops n hn
    rw [goTargets] at hn
    rcases ih _ (fun pr' hpr' => hhops pr' (List.mem_cons_of_mem _ hpr')) n hn with h | h
    · exact processTarget_reach w recurse src r st pr f hrec
        (hhops pr (List.mem_cons_self _ _)) n h
    · exact Or.inr h

theorem doRel_reach (w : World) (recurse : Entity → St → St)
    (src : Entity) (r : Rel) (st : St) (f : Nat)
    (hrel : r ∈ w.rels src.etype)
    (hrec : ∀ t s n, n ∈ (recurse t s).nodes → n ∈ s.nodes ∨ ReachLe w f t n) :
    ∀ n ∈ (doRel w recurse src r st).1.nodes,
      n ∈ st.nodes ∨ ReachLe w (f + 1) src n := by
  intro n hn
  unfold doRel at hn
  by_cases hd : r.display_in_graph
  · rw [if_neg (by simp [hd])] at hn
    by_cases hexp : r.expensive
    · rw [if_pos hexp] at hn
      cases hp : w.getProvider src.etype with
      | none => rw [hp] at hn; exact Or.inl hn
      | some p =>
        rw [hp] at hn
        dsimp only at hn
        split at hn
        · exact Or.inl hn
        · rcases List.mem_append.1 hn with hn | hn
          · exact Or.inl hn
          · simp only [List.mem_singleton] at hn
            subst hn
            refine Or.inr (reachLe_mono
              (ReachLe.step src _ _ 0 ?_ (ReachLe.refl 0 _))
              (Nat.succ_le_succ (Nat.zero_le f)))
            exact ⟨r, hrel, hd, Or.inl ⟨hexp, p, hp, rfl⟩⟩
    · rw [if_neg hexp] at hn
      cases hp : w.getProvider src.etype with
      | none => rw [hp] at hn; exact Or.inl hn
      | some p =>
        rw [hp] at hn
        dsimp only at hn
        cases hrl : p.getRelated src r.name with
        | error e => rw [hrl] at hn; exact Or.inl hn
        | ok ids =>
          rw [hrl] at hn
          refine goTargets_reach w recurse src r f hrec ids st ?_ n hn
          intro pr hpr tgt hft
          refine ⟨r, hrel, hd, Or.inr ⟨(by simpa using hexp), p, ids, pr.1, pr.2,
            hp, hrl, ?_, hft⟩⟩
          simpa using hpr
  · rw [if_pos (by simp [hd])] at hn
    exact Or.inl hn

theorem goRels_reach (w : World) (recurse : Entity → St → St)
    (src : Entity) (f : Nat)
    (hrec : ∀ t s n, n ∈ (recurse t s).nodes → n ∈ s.nodes ∨ ReachLe w f t n) :
    ∀ (rs : List Rel) (st : St),
      (∀ r ∈ rs, r ∈ w.rels src.etype) →
      ∀ n ∈ (goRels w recurse src rs st).1.nodes,
        n ∈ st.nodes ∨ ReachLe w (f + 1) src n := by
  intro rs
  induction rs with
  | nil => intro st _ n hn; exact Or.inl hn
  | cons r rest ih =>
    intro st hrels n hn
    rw [goRels] at hn
    have hdr := doRel_reach w recurse src r st f (hrels r (List.mem_cons_self _ _)) hrec
    cases hdo : doRel w recurse src r st with
    | mk st' err =>
      rw [hdo] at hn hdr
      cases err with
      | none =>
        rcases ih st' (fun r' hr' => hrels r' (List.mem_cons_of_mem _ hr')) n hn with h | h
        · rcases hdr n h with h' | h'
          · exact Or.inl h'
          · exact Or.inr h'
        · exact Or.inr h
      | some e =>
        rcases hdr n hn with h | h
        · exact Or.inl h
        · exact Or.inr h

theorem buildRec_reach (w : World) :
    ∀ (f : Nat) (t : Entity) (st : St),
      ∀ n ∈ (buildRec w f t st).1.nodes, n ∈ st.nodes ∨ ReachLe w f t n := by
  intro f
  induction f with
  | zero =>
    intro t st n hn
    rcases visitAdd_nodes_mem t st n hn with h | h
    · exact Or.inl h
    · subst h
      exact Or.inr (ReachLe.refl 0 n)
  | succ f ih =>
    intro t st n hn
    rw [buildRec] at hn
    rcases goRels_reach w _ t f (fun t' s' n' hn' => ih t' s' n' hn') _ _
      (fun r hr => hr) n hn with h | h
    · rcases visitAdd_nodes_mem t st n h with h' | h'
      · exact Or.inl h'
      · subst h'
        exact Or.inr (ReachLe.refl (f + 1) n)
    · exact Or.inr h

/-! ### The traversal never raises when the source's type has a provider -/

theorem doRel_noerr (w : World) (recurse : Entity → St → St)
    (src : Entity) (r : Rel) (st : St) (p : Provider)
    (hp : w.getProvider src.etype = some p) :
    (doRel w recurse src r st).2 = none := by
  unfold doRel
  split
  · rfl
  · split
    · rw [hp]
      dsimp only
      split
      · rfl
      · rfl
    · rw [hp]
      dsimp only
      cases hrl : p.getRelated src r.name with
      | error e => rfl
      | ok ids => rfl

theorem goRels_noerr (w : World) (recurse : Entity → St → St)
    (src : Entity) (p : Provider)
    (hp : w.getProvider src.etype = some p) :
    ∀ (rs : List Rel) (st : St), (goRels w recurse src rs st).2 = none := by
  intro rs
  induction rs with
  | nil => intro st; rfl
  | cons r rest ih =>
    intro st
    rw [goRels]
    have hne := doRel_noerr w recurse src r st p hp
    cases hdo : doRel w recurse src r st with
    | mk st' err =>
      rw [hdo] at hne
      cases err with
      | none => exact ih st'
      | some e => exact absurd hne (by simp)

theorem buildRec_noerr (w : World) (f : Nat) (t : Entity) (st : St)
    (p : Provider) (hp : w.getProvider t.etype = some p) :
    (buildRec w f t st).2 = none := by
  cases f with
  | zero => rfl
  | succ f =>
    rw [buildRec]
    exact goRels_noerr w _ t p hp _ _

/-! ### Shape of the entry points -/

theorem visitAdd_empty (t : Entity) :
    visitAdd t ⟨[], [], []⟩ = ⟨[t], [], [t.id]⟩ := by
  simp [visitAdd]

theorem buildRec_root_head (w : World) (f : Nat) (t : Entity) :
    ∃ tl, (buildRec w f t ⟨[], [], []⟩).1.nodes = t :: tl := by
  cases f with
  | zero =>
    refine ⟨[], ?_⟩
    show (visitAdd t ⟨[], [], []⟩).nodes = [t]
    rw [visitAdd_empty]
  | succ f =>
    rw [buildRec, visitAdd_empty]
    have hg := goRels_grows w (fun t' s' => (buildRec w f t' s').1) t
      (fun t' s' => buildRec_grows w f t' s') (w.rels t.etype) ⟨[t], [], [t.id]⟩
    obtain ⟨tl, htl⟩ := hg.2.1
    exact ⟨tl, htl.symm⟩

theorem build_graph_spec (w : World) (a b c : String) (r : GraphResult)
    (h : build_graph w a b c = .ok r) :
    ∃ t p root st, w.resolveType a b c = some t ∧ w.getProvider t = some p ∧
      p.getById t b c none = .ok (some root) ∧
      buildRec w 2 root ⟨[], [], []⟩ = (st, none) ∧ r = ⟨st.nodes, st.edges⟩ := by
  unfold build_graph at h
  cases hres : w.resolveType a b c with
  | none => rw [hres] at h; simp at h
  | some t =>
    rw [hres] at h
    dsimp only at h
    cases hp : w.getProvider t with
    | none => rw [hp] at h; simp at h
    | some p =>
      rw [hp] at h
      dsimp only at h
      cases hg : p.getById t b c none with
      | error e => rw [hg] at h; simp at h
      | ok o =>
        rw [hg] at h
        cases o with
        | none => simp at h
        | some root =>
          dsimp only at h
          cases hb : buildRec w 2 root ⟨[], [], []⟩ with
          | mk st err =>
            rw [hb] at h
            cases err with
            | none =>
              simp only [Except.ok.injEq] at h
              exact ⟨t, p, root, st, by simp [hres], by simp [hp],
                by simp [hg], by simp [hb], h.symm⟩
            | some e => simp at h

theorem expand_node_spec (w : World) (nid rt b c : String) (r : GraphResult)
    (h : expand_node w nid rt b c = .ok r) :
    ∃ p root st, w.getProvider rt = some p ∧
      p.getById rt b c none = .ok (some root) ∧
      buildRec w 1 root ⟨[], [], [root.id]⟩ = (st, none) ∧
      r = ⟨st.nodes, st.edges⟩ := by
  unfold expand_node at h
  cases hp : w.getProvider rt with
  | none => rw [hp] at h; simp at h
  | some p =>
    rw [hp] at h
    dsimp only at h
    cases hg : p.getById rt b c none with
    | error e => rw [hg] at h; simp at h
    | ok o =>
      rw [hg] at h
      cases o with
      | none => simp at h
      | some root =>
        dsimp only at h
        cases hb : buildRec w 1 root ⟨[], [], [root.id]⟩ with
        | mk st err =>
          rw [hb] at h
          cases err with
          | none =>
            simp only [Except.ok.injEq] at h
            exact ⟨p, root, st, by simp [hp], by simp [hg], by simp [hb], h.symm⟩
          | some e => simp at h

/-! ### Claim theorems -/

/-- C5: for every result of `build_graph` and `expand_node`, the nodes list
contains no two entries with equal id — the visited set guards every append
to `nodes`, and the appended id is added to the visited set at the same
time. -/
theorem c5_node_uniqueness :
    (∀ (w : World) (a b c : String) (r : GraphResult),
        build_graph w a b c = .ok r → (r.nodes.map Entity.id).Nodup)
  ∧ (∀ (w : World) (nid rt b c : String) (r : GraphResult),
        expand_node w nid rt b c = .ok r → (r.nodes.map Entity.id).Nodup) := by
  constructor
  · intro w a b c r h
    obtain ⟨t, p, root, st, _, _, _, hb, hr⟩ := build_graph_spec w a b c r h
    have hinv := buildRec_pinv [] w 2 root ⟨[], [], []⟩
      ⟨by simp [St.ids], by simp [St.ids]⟩
      (by intro v hv; simp at hv)
      (by intro e he; simp at he)
    rw [hb] at hinv
    subst hr
    exact hinv.1.1
  · intro w nid rt b c r h
    obtain ⟨p, root, st, _, _, hb, hr⟩ := expand_node_spec w nid rt b c r h
    have hinv := buildRec_pinv [root.id] w 1 root ⟨[], [], [root.id]⟩
      ⟨by simp [St.ids], by simp [St.ids]⟩
      (by intro v hv; exact Or.inl hv)
      (by intro e he; simp at he)
    rw [hb] at hinv
    subst hr
    exact hinv.1.1

/-- C5 witness: the worked-example build succeeds and its node ids are
pairwise distinct. -/
theorem c5_witness :
    build_graph specW "Stock" "instrumentId" "STK-100" = .ok specRes
    ∧ (specRes.nodes.map Entity.id).Nodup :=
  ⟨rfl, c5_node_uniqueness.1 specW "Stock" "instrumentId" "STK-100" specRes rfl⟩

/-- C2 counterexample: for `expand_node` the claimed referential integrity
fails — expanding STK-100 produces edges whose source id `STK-100` is the id
of no entry of the returned nodes list. -/
theorem c2_counterexample :
    expand_node specW "n1" "Stock" "instrumentId" "STK-100" = .ok expandRes
    ∧ (Edge.mk "STK-100" "TL-1001" "LISTING") ∈ expandRes.edges
    ∧ "STK-100" ∉ expandRes.nodes.map Entity.id :=
  ⟨rfl, by decide, by decide⟩

/-- C2 amended: for `build_graph`, every edge's source and target id is the
id of a returned node; for `expand_node`, whose root — the entity fetched by
`getById` and pre-seeded into the visited set — is emitted only as an edge
source and never as a node, every edge endpoint is either the id of a
returned node or exactly that pre-seeded root's id. -/
theorem c2_edge_referential_integrity :
    (∀ (w : World) (a b c : String) (r : GraphResult),
        build_graph w a b c = .ok r →
        ∀ e ∈ r.edges, e.source ∈ r.nodes.map Entity.id ∧
          e.target ∈ r.nodes.map Entity.id)
  ∧ (∀ (w : World) (nid rt b c : String) (p : Provider) (root : Entity)
        (r : GraphResult),
        w.getProvider rt = some p →
        p.getById rt b c none = .ok (some root) →
        expand_node w nid rt b c = .ok r →
        ∀ e ∈ r.edges,
          (e.source ∈ r.nodes.map Entity.id ∨ e.source = root.id) ∧
          (e.target ∈ r.nodes.map Entity.id ∨ e.target = root.id)) := by
  constructor
  · intro w a b c r h
    obtain ⟨t, p, root, st, _, _, _, hb, hr⟩ := build_graph_spec w a b c r h
    have hinv := buildRec_pinv [] w 2 root ⟨[], [], []⟩
      ⟨by simp [St.ids], by simp [St.ids]⟩
      (by intro v hv; simp at hv)
      (by intro e he; simp at he)
    rw [hb] at hinv
    subst hr
    intro e he
    obtain ⟨hsrc, htgt⟩ := hinv.2.2 e he
    rcases hinv.2.1 _ hsrc with h1 | h1
    · simp at h1
    · rcases hinv.2.1 _ htgt with h2 | h2
      · simp at h2
      · exact ⟨h1, h2⟩
  · intro w nid rt b c p root r hp hg h
    obtain ⟨p', root', st, hp', hg', hb, hr⟩ := expand_node_spec w nid rt b c r h
    rw [hp] at hp'
    obtain rfl : p = p' := Option.some.inj hp'
    rw [hg] at hg'
    obtain rfl : root = root' := Option.some.inj (Except.ok.inj hg')
    have hinv := buildRec_pinv [root.id] w 1 root ⟨[], [], [root.id]⟩
      ⟨by simp [St.ids], by simp [St.ids]⟩
      (by intro v hv; exact Or.inl hv)
      (by intro e he; simp at he)
    rw [hb] at hinv
    subst hr
    intro e he
    obtain ⟨hsrc, htgt⟩ := hinv.2.2 e he
    constructor
    · rcases hinv.2.1 _ hsrc with h1 | h1
      · simp only [List.mem_singleton] at h1
        exact Or.inr h1
      · exact Or.inl h1
    · rcases hinv.2.1 _ htgt with h2 | h2
      · simp only [List.mem_singleton] at h2
        exact Or.inr h2
      · exact Or.inl h2

/-- C2 witness (amended claim): the worked-example build satisfies edge
referential integrity, and expanding STK-100 — fetched as root entSTK —
keeps every edge endpoint a node id or entSTK's own id. -/
theorem c2_witness :
    (build_graph specW "Stock" "instrumentId" "STK-100" = .ok specRes
      ∧ ∀ e ∈ specRes.edges, e.source ∈ specRes.nodes.map Entity.id ∧
          e.target ∈ specRes.nodes.map Entity.id)
    ∧ (specW.getProvider "Stock" = some pSpec
      ∧ pSpec.getById "Stock" "instrumentId" "STK-100" none = .ok (some entSTK)
      ∧ expand_node specW "n1" "Stock" "instrumentId" "STK-100" = .ok expandRes
      ∧ ∀ e ∈ expandRes.edges,
          (e.source ∈ expandRes.nodes.map Entity.id ∨ e.source = entSTK.id) ∧
          (e.target ∈ expandRes.nodes.map Entity.id ∨ e.target = entSTK.id)) :=
  ⟨⟨rfl, c2_edge_referential_integrity.1 specW "Stock" "instrumentId" "STK-100"
      specRes rfl⟩,
   ⟨rfl, rfl, rfl,
    c2_edge_referential_integrity.2 specW "n1" "Stock" "instrumentId" "STK-100"
      pSpec entSTK expandRes rfl rfl rfl⟩⟩

/-- C3: every returned node is reachable from the root within the depth
bound used by the engine — at most 2 hops for `build_graph`, at most 1 hop
for `expand_node` — with the expensive-relationship placeholder counted as a
single hop from its source. -/
theorem c3_depth_bound :
    (∀ (w : World) (a b c t : String) (p : Provider) (root : Entity)
        (r : GraphResult),
        w.resolveType a b c = some t → w.getProvider t = some p →
        p.getById t b c none = .ok (some root) →
        build_graph w a b c = .ok r →
        ∀ n ∈ r.nodes, ReachLe w 2 root n)
  ∧ (∀ (w : World) (nid rt b c : String) (p : Provider) (root : Entity)
        (r : GraphResult),
        w.getProvider rt = some p →
        p.getById rt b c none = .ok (some root) →
        expand_node w nid rt b c = .ok r →
        ∀ n ∈ r.nodes, ReachLe w 1 root n) := by
  constructor
  · intro w a b c t p root r hres hp hg h
    obtain ⟨t', p', root', st, hres', hp', hg', hb, hr⟩ :=
      build_graph_spec w a b c r h
    rw [hres] at hres'
    obtain rfl : t = t' := Option.some.inj hres'
    rw [hp] at hp'
    obtain rfl : p = p' := Option.some.inj hp'
    rw [hg] at hg'
    obtain rfl : root = root' := Option.some.inj (Except.ok.inj hg')
    subst hr
    intro n hn
    have := buildRec_reach w 2 root ⟨[], [], []⟩ n (by rw [hb]; exact hn)
    rcases this with h' | h'
    · simp at h'
    · exact h'
  · intro w nid rt b c p root r hp hg h
    obtain ⟨p', root', st, hp', hg', hb, hr⟩ := expand_node_spec w nid rt b c r h
    rw [hp] at hp'
    obtain rfl : p = p' := Option.some.inj hp'
    rw [hg] at hg'
    obtain rfl : root = root' := Option.some.inj (Except.ok.inj hg')
    subst hr
    intro n hn
    have := buildRec_reach w 1 root ⟨[], [], [root.id]⟩ n (by rw [hb]; exact hn)
    rcases this with h' | h'
    · simp at h'
    · exact h'

/-- C3 witness: in the worked example the exchange node EX-9 (the deepest
node) is reached within 2 hops of the root stock. -/
theorem c3_witness : ReachLe specW 2 entSTK entEX :=
  c3_depth_bound.1 specW "Stock" "instrumentId" "STK-100" "Stock" pSpec entSTK
    specRes rfl rfl rfl rfl entEX (by decide)

/-- C1 counterexample: in `dupW` the entity B is a related target returned
for the non-expensive relationship `q` and is fetched successfully, yet the
edge `(A, B, L2)` is not in the result — the code appends an edge only when
the target's id is not yet visited, contradicting the claim that the edge is
always appended. -/
theorem c1_counterexample :
    pDup.getRelated entA "q" = .ok [("id", "b")]
    ∧ fetchTarget dupW "T2" "id" "b" entA = .ok (some entB)
    ∧ build_graph dupW "T" "id" "a" = .ok dupRes
    ∧ entB ∈ dupRes.nodes
    ∧ (Edge.mk "A" "B" "L2") ∉ dupRes.edges :=
  ⟨rfl, rfl, rfl, by decide, by decide⟩

/-- C1 amended: in the per-target loop body, a successfully fetched target
whose id is already visited is skipped entirely — no node and no edge is
appended; the edge `(source.id, target.id, label)` is appended exactly when
the fetched target's id is not yet in the visited set. -/
theorem c1_edge_only_for_new_targets (w : World) (f : Nat) (src : Entity)
    (r : Rel) (st : St) (it iv : String) (tgt : Entity)
    (hft : fetchTarget w r.target_type it iv src = .ok (some tgt)) :
    (tgt.id ∈ st.visited → processTarget w (buildStep w f) src r st (it, iv) = st)
    ∧ (tgt.id ∉ st.visited → ∃ tl,
        (processTarget w (buildStep w f) src r st (it, iv)).edges
          = st.edges ++ Edge.mk src.id tgt.id r.relationship_label :: tl) := by
  constructor
  · intro hv
    unfold processTarget
    rw [hft]
    dsimp only
    rw [if_pos hv]
  · intro hv
    unfold processTarget
    rw [hft]
    dsimp only
    rw [if_neg hv]
    have hg := buildRec_grows w f tgt
      { st with edges := st.edges ++ [⟨src.id, tgt.id, r.relationship_label⟩] }
    obtain ⟨tl, htl⟩ := hg.2.2
    refine ⟨tl, ?_⟩
    show (buildStep w f tgt _).edges = _
    rw [buildStep, ← htl]
    simp

/-- C1 witness (amended claim): processing target B of relationship `q` from
A with an empty edge list appends the `(A, B, L2)` edge because B is not yet
visited. -/
theorem c1_witness :
    fetchTarget dupW "T2" "id" "b" entA = .ok (some entB)
    ∧ "B" ∉ (⟨[entA], [], ["A"]⟩ : St).visited
    ∧ ∃ tl, (processTarget dupW (buildStep dupW 0) entA relQ
        ⟨[entA], [], ["A"]⟩ ("id", "b")).edges
        = Edge.mk "A" "B" "L2" :: tl := by
  refine ⟨rfl, by decide, ?_⟩
  obtain ⟨tl, htl⟩ :=
    (c1_edge_only_for_new_targets dupW 0 entA relQ ⟨[entA], [], ["A"]⟩
      "id" "b" entB rfl).2 (by decide)
  exact ⟨tl, htl⟩

/-- C4: a displayed expensive relationship contributes exactly one placeholder
node and one edge per source entity: the relationship loop's expensive branch
equals `expensiveStep`, a state update that never consults `getById`, never
recurses (the equation holds for every `recurse`), gives the placeholder the
composite id `source.id + "_" + relationship.name`, and stores the count
obtained from the provider's related-id lookup. -/
theorem c4_expensive_deferral (w : World) (recurse : Entity → St → St)
    (src : Entity) (r : Rel) (st : St) (p : Provider)
    (hdisp : r.display_in_graph = true) (hexp : r.expensive = true)
    (hp : w.getProvider src.etype = some p) :
    doRel w recurse src r st = expensiveStep src r p st
    ∧ (mkTreeListNode src r (relatedCount p src r.name)).id
        = src.id ++ "_" ++ r.name
    ∧ alookup "totalCount" (mkTreeListNode src r (relatedCount p src r.name)).data
        = some (.vint (relatedCount p src r.name)) := by
  refine ⟨?_, rfl, ?_⟩
  · unfold doRel expensiveStep
    rw [if_neg (by simp [hdisp]), if_pos hexp, hp]
  · simp [mkTreeListNode, alookup]

/-- C4 witness: the expensive options relationship of the worked example
yields exactly the placeholder node with composite id and count 3, and one
edge, for an arbitrary recursion function. -/
theorem c4_witness :
    relOptions.display_in_graph = true ∧ relOptions.expensive = true
    ∧ specW.getProvider entSTK.etype = some pSpec
    ∧ (doRel specW (fun _ s => s) entSTK relOptions ⟨[], [], []⟩
        = expensiveStep entSTK relOptions pSpec ⟨[], [], []⟩
      ∧ (mkTreeListNode entSTK relOptions
          (relatedCount pSpec entSTK relOptions.name)).id
          = entSTK.id ++ "_" ++ relOptions.name
      ∧ alookup "totalCount" (mkTreeListNode entSTK relOptions
          (relatedCount pSpec entSTK relOptions.name)).data
          = some (.vint (relatedCount pSpec entSTK relOptions.name))) :=
  ⟨rfl, rfl, rfl,
   c4_expensive_deferral specW (fun _ s => s) entSTK relOptions ⟨[], [], []⟩
     pSpec rfl rfl rfl⟩

/-- C6: `build_graph` raises exactly when the root cannot be established
(`rootLookup` is `none`: the type does not resolve, its provider is missing,
the provider raises, or the lookup returns absent).  Once the root is
established — and its entity type has a provider, which holds for every
provider of the repository since each constructs entities of the requested
type — the call returns a result whose first node is the root, for every
world, including worlds whose providers raise while listing related ids or
fetching target entities: those exceptions are caught and only skip the
affected edge. -/
theorem c6_error_iff_root_unestablished :
    (∀ (w : World) (gt it iv : String),
        rootLookup w gt it iv = none →
        ∃ msg, build_graph w gt it iv = .error msg)
  ∧ (∀ (w : World) (gt it iv : String) (e : Entity),
        rootLookup w gt it iv = some e → (w.getProvider e.etype).isSome →
        ∃ res, build_graph w gt it iv = .ok res ∧ res.nodes.head? = some e) := by
  constructor
  · intro w gt it iv h
    unfold rootLookup at h
    cases hres : w.resolveType gt it iv with
    | none =>
      exact ⟨_, by unfold build_graph; rw [hres]⟩
    | some t =>
      rw [hres] at h
      dsimp only at h
      cases hp : w.getProvider t with
      | none =>
        exact ⟨_, by unfold build_graph; rw [hres]; dsimp only; rw [hp]⟩
      | some p =>
        rw [hp] at h
        dsimp only at h
        cases hg : p.getById t it iv none with
        | error msg =>
          refine ⟨msg, ?_⟩
          unfold build_graph
          rw [hres]
          dsimp only
          rw [hp]
          dsimp only
          rw [hg]
        | ok o =>
          rw [hg] at h
          cases o with
          | none =>
            refine ⟨"Entity not found: " ++ it ++ "=" ++ iv, ?_⟩
            unfold build_graph
            rw [hres]
            dsimp only
            rw [hp]
            dsimp only
            rw [hg]
          | some root => simp at h
  · intro w gt it iv e h hpe
    unfold rootLookup at h
    cases hres : w.resolveType gt it iv with
    | none => rw [hres] at h; simp at h
    | some t =>
      rw [hres] at h
      dsimp only at h
      cases hp : w.getProvider t with
      | none => rw [hp] at h; simp at h
      | some p =>
        rw [hp] at h
        dsimp only at h
        cases hg : p.getById t it iv none with
        | error msg => rw [hg] at h; simp at h
        | ok o =>
          rw [hg] at h
          cases o with
          | none => simp at h
          | some root =>
            simp only [Option.some.injEq] at h
            subst h
            obtain ⟨p', hps⟩ := Option.isSome_iff_exists.1 hpe
            have hnoerr := buildRec_noerr w 2 root ⟨[], [], []⟩ p' hps
            obtain ⟨tl, hhead⟩ := buildRec_root_head w 2 root
            cases hbr : buildRec w 2 root ⟨[], [], []⟩ with
            | mk st err =>
              rw [hbr] at hnoerr hhead
              subst hnoerr
              refine ⟨⟨st.nodes, st.edges⟩, ?_, ?_⟩
              · unfold build_graph
                rw [hres]
                dsimp only
                rw [hp]
                dsimp only
                rw [hg]
                dsimp only
                rw [hbr]
              · rw [hhead]
                rfl

/-- C6 witness: in the worked-example world the root of STK-100 is
established and the build returns a result headed by it; a world that cannot
resolve the type errors out. -/
theorem c6_witness :
    (rootLookup specW "Stock" "instrumentId" "STK-100" = some entSTK
      ∧ (specW.getProvider entSTK.etype).isSome = true
      ∧ ∃ res, build_graph specW "Stock" "instrumentId" "STK-100" = .ok res
          ∧ res.nodes.head? = some entSTK)
    ∧ (rootLookup specW "Stock" "instrumentId" "NO-SUCH" = none
      ∧ ∃ msg, build_graph specW "Stock" "instrumentId" "NO-SUCH" = .error msg) :=
  ⟨⟨rfl, rfl,
    c6_error_iff_root_unestablished.2 specW "Stock" "instrumentId" "STK-100"
      entSTK rfl (by decide)⟩,
   ⟨rfl,
    c6_error_iff_root_unestablished.1 specW "Stock" "instrumentId" "NO-SUCH" rfl⟩⟩

theorem cm_get_miss {α : Type} (cm : CacheManager α) (key : String) (now : Int)
    (hen : cm.enabled = true) (habs : alookup key cm.cache.store = none) :
    cm.get key now = (none, cm) := by
  obtain ⟨cache, en, dttl⟩ := cm
  dsimp only at hen habs
  subst hen
  simp [CacheManager.get, MemoryCache.get, habs]

theorem cm_get_hit {α : Type} (cm : CacheManager α) (key : String) (now : Int)
    (e : CacheEntry α) (hen : cm.enabled = true)
    (hfound : alookup key cm.cache.store = some e)
    (hnexp : e.is_expired now = false) :
    cm.get key now = (some e.value, cm) := by
  obtain ⟨cache, en, dttl⟩ := cm
  dsimp only at hen hfound
  subst hen
  simp [CacheManager.get, MemoryCache.get, hfound, hnexp]

theorem cm_set_store {α : Type} (cm : CacheManager α) (key : String) (v : α)
    (now : Int) (hen : cm.enabled = true) :
    cm.set key v (some 300) now =
      { cm with cache := ⟨aset key (mkCacheEntry v (some 300) now) cm.cache.store⟩ } := by
  simp [CacheManager.set, MemoryCache.set, hen]

/-- C7: calling the cached graph-build twice with identical arguments, the
second within the 300-second TTL window of the first, returns the identical
result on the second call, and the second call does not invoke the
underlying graph builder (the instrumentation flag is `false`: served from
cache). -/
theorem c7_cache_idempotence (s : GraphService) (rt it iv : String)
    (r : GraphResult) (t0 t1 : Int)
    (hen : s.cm.enabled = true)
    (habs : alookup (s.genKey rt it iv) s.cm.cache.store = none)
    (hb : build_graph s.w rt it iv = .ok r)
    (hwin : t1 ≤ t0 + 300) :
    ∃ s1, build_initial_graph s rt it iv t0 = .ok (r, s1, true)
      ∧ build_initial_graph s1 rt it iv t1 = .ok (r, s1, false) := by
  refine ⟨{ s with cm := s.cm.set (s.genKey rt it iv) r (some 300) t0 }, ?_, ?_⟩
  · unfold build_initial_graph
    dsimp only
    rw [cm_get_miss s.cm _ t0 hen habs]
    dsimp only
    rw [hb]
  · unfold build_initial_graph
    dsimp only
    have hset := cm_set_store s.cm (s.genKey rt it iv) r t0 hen
    have hnexp : (mkCacheEntry r (some 300) t0).is_expired t1 = false := by
      simp only [mkCacheEntry, CacheEntry.is_expired]
      norm_num
      omega
    rw [cm_get_hit (s.cm.set (s.genKey rt it iv) r (some 300) t0)
      (s.genKey rt it iv) t1 (mkCacheEntry r (some 300) t0)
      (by rw [hset]; exact hen)
      (by rw [hset]; exact alookup_aset_self _ _ _) hnexp]
    dsimp only
    rfl

/-- C7 witness: a concrete run of the cached build on the worked example —
computed at time 0, served from cache at time 100. -/
theorem c7_witness :
    ∃ s1, build_initial_graph
        ⟨specW, fun a b c => a ++ "|" ++ b ++ "|" ++ c, CacheManager.init _⟩
        "Stock" "instrumentId" "STK-100" 0 = .ok (specRes, s1, true)
      ∧ build_initial_graph s1 "Stock" "instrumentId" "STK-100" 100
          = .ok (specRes, s1, false) :=
  c7_cache_idempotence
    ⟨specW, fun a b c => a ++ "|" ++ b ++ "|" ++ c, CacheManager.init _⟩
    "Stock" "instrumentId" "STK-100" specRes 0 100 rfl rfl rfl (by omega)

theorem ceil_div_eq (n s : Nat) (hs : 0 < s) :
    (((n + s - 1) / s : Nat) : ℤ) = ⌈(n : ℚ) / (s : ℚ)⌉ := by
  have hsq : (0 : ℚ) < (s : ℚ) := by exact_mod_cast hs
  have hdm := Nat.div_add_mod (n + s - 1) s
  have hmod : (n + s - 1) % s < s := Nat.mod_lt _ hs
  have h1 : n ≤ s * ((n + s - 1) / s) := by omega
  have h2 : s * ((n + s - 1) / s) < n + s := by omega
  obtain ⟨q, hq⟩ : ∃ q : Nat, (n + s - 1) / s = q := ⟨_, rfl⟩
  rw [hq] at h1 h2 ⊢
  have h1q : (n : ℚ) ≤ (s : ℚ) * (q : ℚ) := by exact_mod_cast h1
  have h2q : (s : ℚ) * (q : ℚ) < (n : ℚ) + (s : ℚ) := by exact_mod_cast h2
  rw [eq_comm, Int.ceil_eq_iff]
  push_cast
  constructor
  · rw [lt_div_iff₀ hsq]
    nlinarith
  · rw [div_le_iff₀ hsq]
    nlinarith

/-- C8: the options tree-list pagination of a filtered and sorted collection
of `n` items with page size `s > 0` and page `p ≥ 1` returns
`totalPages = ⌈n / s⌉`, the slice of the collection from offset `(p-1)*s` of
length at most `s`, `hasNext` exactly when `p < totalPages`, and
`hasPrevious` exactly when `p > 1`. -/
theorem c8_pagination {α : Type} (l : List α) (p s : Nat)
    (hs : 0 < s) (_hp : 1 ≤ p) :
    ((paginateOptions l p s).total_pages : ℤ) = ⌈(l.length : ℚ) / (s : ℚ)⌉
    ∧ (paginateOptions l p s).data = (l.drop ((p - 1) * s)).take s
    ∧ (paginateOptions l p s).data.length ≤ s
    ∧ ((paginateOptions l p s).has_next = true ↔
        p < (paginateOptions l p s).total_pages)
    ∧ ((paginateOptions l p s).has_previous = true ↔ 1 < p) := by
  refine ⟨?_, rfl, ?_, ?_, ?_⟩
  · show ((if s > 0 then (l.length + s - 1) / s else 0 : Nat) : ℤ) = _
    rw [if_pos hs]
    exact ceil_div_eq l.length s hs
  · show ((l.drop ((p - 1) * s)).take s).length ≤ s
    rw [List.length_take]
    exact min_le_left _ _
  · exact decide_eq_true_iff
  · exact decide_eq_true_iff

/-- C8 witness: paginating a 3-item collection with page size 1 and page 2
returns 1 row, `hasNext`, `hasPrevious`, and `totalPages = 3` — the worked
pagination example. -/
theorem c8_witness :
    (0 < 1 ∧ 1 ≤ 2)
    ∧ (((paginateOptions ["o1", "o2", "o3"] 2 1).total_pages : ℤ)
        = ⌈((["o1", "o2", "o3"] : List String).length : ℚ) / ((1 : Nat) : ℚ)⌉
      ∧ (paginateOptions ["o1", "o2", "o3"] 2 1).data
        = ((["o1", "o2", "o3"] : List String).drop ((2 - 1) * 1)).take 1
      ∧ (paginateOptions ["o1", "o2", "o3"] 2 1).data.length ≤ 1
      ∧ ((paginateOptions ["o1", "o2", "o3"] 2 1).has_next = true ↔
          2 < (paginateOptions ["o1", "o2", "o3"] 2 1).total_pages)
      ∧ ((paginateOptions ["o1", "o2", "o3"] 2 1).has_previous = true ↔ 1 < 2))
    ∧ (paginateOptions ["o1", "o2", "o3"] 2 1).data = ["o2"]
    ∧ (paginateOptions ["o1", "o2", "o3"] 2 1).total_pages = 3
    ∧ (paginateOptions ["o1", "o2", "o3"] 2 1).has_next = true
    ∧ (paginateOptions ["o1", "o2", "o3"] 2 1).has_previous = true :=
  ⟨⟨by decide, by decide⟩,
   c8_pagination ["o1", "o2", "o3"] 2 1 (by decide) (by decide),
   by decide, by decide, by decide, by decide⟩

/-- C9 counterexample: rendering a stock whose raw data lacks the optional
`isin` field still emits the `ISIN` key — mapped to Python `None` — in the
graph-node output's `additionalLines`, contradicting the claim that the key
is dropped. -/
theorem c9_counterexample :
    alookup "isin" stockData0 = none
    ∧ alookup "ISIN" (addLines (stockToNodeDict stockData0 "2026-10-12"))
        = some .vnull :=
  ⟨rfl, rfl⟩

/-- C9 amended: the graph-node rendering emits every template key
unconditionally; a missing optional field appears with a null value rather
than being dropped. -/
theorem c9_missing_field_rendered_null (data : List (String × Val))
    (now : String) (h : alookup "isin" data = none) :
    alookup "ISIN" (addLines (stockToNodeDict data now)) = some .vnull := by
  simp [stockToNodeDict, addLines, alookup, pyGet, h]

/-- C9 witness (amended claim): the isin-less stock data renders with a null
ISIN entry. -/
theorem c9_witness :
    alookup "isin" stockData0 = none
    ∧ alookup "ISIN" (addLines (stockToNodeDict stockData0 "t0")) = some .vnull :=
  ⟨rfl, c9_missing_field_rendered_null stockData0 "t0" rfl⟩

/-- C10: a cache entry stored with ttl omitted (`none`) or `0` never
expires — `is_expired` is always false and `get` returns the stored value at
any later instant; for a positive ttl, a `get` at or before the expiry
instant hits and leaves the cache unchanged, while the first `get` after the
expiry instant returns `none` and deletes the entry (lazy eviction on
access). -/
theorem c10_ttl_expiry {α : Type} :
    (∀ (v : α) (c t : Int),
        (mkCacheEntry v none c).is_expired t = false
      ∧ (mkCacheEntry v (some 0) c).is_expired t = false)
  ∧ (∀ (cch : MemoryCache α) (k : String) (v : α) (ttl : Option Int)
        (t0 t : Int), ttl = none ∨ ttl = some 0 →
        (cch.set k v ttl t0).get k t = (some v, cch.set k v ttl t0))
  ∧ (∀ (cch : MemoryCache α) (k : String) (v : α) (ttl t0 t : Int),
        0 < ttl → t ≤ t0 + ttl →
        (cch.set k v (some ttl) t0).get k t = (some v, cch.set k v (some ttl) t0))
  ∧ (∀ (cch : MemoryCache α) (k : String) (v : α) (ttl t0 t : Int),
        0 < ttl → t0 + ttl < t →
        ((cch.set k v (some ttl) t0).get k t).1 = none
      ∧ alookup k (((cch.set k v (some ttl) t0).get k t).2).store = none) := by
  refine ⟨?_, ?_, ?_, ?_⟩
  · intro v c t
    exact ⟨rfl, rfl⟩
  · intro cch k v ttl t0 t h
    rcases h with h | h <;> subst h <;>
      simp [MemoryCache.get, MemoryCache.set, alookup_aset_self,
        mkCacheEntry, CacheEntry.is_expired]
  · intro cch k v ttl t0 t hpos hle
    have hne : ttl ≠ 0 := by omega
    simp only [MemoryCache.get, MemoryCache.set, alookup_aset_self,
      mkCacheEntry, CacheEntry.is_expired, if_neg hne]
    rw [if_neg (by simp; omega)]
  · intro cch k v ttl t0 t hpos hlt
    have hne : ttl ≠ 0 := by omega
    simp only [MemoryCache.get, MemoryCache.set, alookup_aset_self,
      mkCacheEntry, CacheEntry.is_expired, if_neg hne]
    rw [if_pos (by simp; omega)]
    exact ⟨rfl, by simp [MemoryCache.set, alookup_aerase_self, aset]⟩

/-- C10 witness: a concrete no-ttl entry survives any probe, a zero-ttl
entry survives, and a 1-second entry stored at time 0 hits at time 1 and is
evicted at time 2. -/
theorem c10_witness :
    ((mkCacheEntry (0 : Nat) none 0).is_expired 1000 = false
      ∧ (mkCacheEntry (0 : Nat) (some 0) 0).is_expired 1000 = false)
    ∧ ((⟨[]⟩ : MemoryCache Nat).set "k" 7 none 0 |>.get "k" 1000)
        = (some 7, (⟨[]⟩ : MemoryCache Nat).set "k" 7 none 0)
    ∧ ((⟨[]⟩ : MemoryCache Nat).set "k" 7 (some 1) 0 |>.get "k" 1)
        = (some 7, (⟨[]⟩ : MemoryCache Nat).set "k" 7 (some 1) 0)
    ∧ (((⟨[]⟩ : MemoryCache Nat).set "k" 7 (some 1) 0 |>.get "k" 2).1 = none
      ∧ alookup "k" (((⟨[]⟩ : MemoryCache Nat).set "k" 7 (some 1) 0
          |>.get "k" 2).2).store = none) :=
  ⟨c10_ttl_expiry.1 0 0 1000,
   c10_ttl_expiry.2.1 ⟨[]⟩ "k" 7 none 0 1000 (Or.inl rfl),
   c10_ttl_expiry.2.2.1 ⟨[]⟩ "k" 7 1 0 1 (by omega) (by omega),
   c10_ttl_expiry.2.2.2 ⟨[]⟩ "k" 7 1 0 2 (by omega) (by omega)⟩

end FinViz
